import Mathlib

/-!
Verification of the pool-placement core of debrepbuild (src/misc.rs).

Strings are modelled as lists of characters (`Str`); the byte-index slicing of
Rust coincides with character indexing on the ASCII inputs the claims range
over.  Rust panics (out-of-bounds slicing, `Option::expect`) are modelled as
values of `PoolError` returned through `Except`.  Filesystem and subprocess
side effects are modelled as explicit lists of `FsOp` values.
-/

set_option autoImplicit false

deriving instance DecidableEq for Except

namespace DebRepBuild

abbrev Str := List Char

/-- Index of the first occurrence of character c, as Rust str find returns for
ASCII text (src/misc.rs uses filename.find). -/
def strFindIdx (c : Char) : Str → Option Nat
  | [] => none
  | x :: xs => if x = c then some 0 else (strFindIdx c xs).map (· + 1)

/-- Index of the last occurrence of character c, as Rust str rfind returns for
ASCII text (src/misc.rs uses filestem.rfind). -/
def strRfindIdx (c : Char) : Str → Option Nat
  | [] => none
  | x :: xs =>
    match strRfindIdx c xs with
    | some i => some (i + 1)
    | none => if x = c then some 0 else none

/-- Rust str ends_with: s ends with the pattern pat. -/
def strEndsWith (pat s : Str) : Bool :=
  decide (s.drop (s.length - pat.length) = pat)

/-- Rust Path::file_stem on a file name: the whole name when it contains no
dot or when its only dot is the leading character, otherwise the portion
before the final dot. -/
def file_stem (f : Str) : Str :=
  match strRfindIdx '.' f with
  | none => f
  | some 0 => f
  | some (i + 1) => f.take (i + 1)

/-- Errors modelling the panics of src/misc.rs: malformedName models the
expect "debian package lacks _ character" in match_deb, indexOutOfBounds
models an out-of-range string-slice panic in fn pool. -/
inductive PoolError
  | malformedName
  | indexOutOfBounds
  deriving DecidableEq

/-- The package extraction of fn pool (src/misc.rs line 154):
filename[..filename.find(.).unwrap_or(0)] applied to the underscore. -/
def packageOf (filename : Str) : Str :=
  filename.take ((strFindIdx '_' filename).getD 0)

/-- The source test of fn pool (src/misc.rs line 160): the filename ends with
dsc or tar.xz (note: without a leading dot). -/
def isSourceFile (filename : Str) : Bool :=
  strEndsWith "dsc".toList filename || strEndsWith "tar.xz".toList filename

/-- The dbgsym strip of fn pool (src/misc.rs lines 166-168): if the package
ends with -dbgsym, drop the last seven characters. -/
def stripDbgsym (package : Str) : Str :=
  if strEndsWith "-dbgsym".toList package then
    package.take (package.length - 7)
  else package

/-- The package name that names the destination directory: the parsed package,
with the -dbgsym suffix stripped in the binary branch only. -/
def displayPackage (filename : Str) : Str :=
  if isSourceFile filename then packageOf filename
  else stripDbgsym (packageOf filename)

/-- The architecture slice of fn pool (src/misc.rs line 170):
filestem[filestem.rfind(underscore).unwrap_or(0) + 1..]. -/
def archFromStem (s : Str) : Str :=
  s.drop ((strRfindIdx '_' s).getD 0 + 1)

/-- Destination computation of fn pool (src/misc.rs lines 146-183) for a
single directory entry whose file name is the given string.  Mirrors the
source: package is the text before the first underscore (defaulting to the
empty prefix when there is none), the source test is an undotted suffix test,
the binary branch strips -dbgsym and slices the architecture out of the file
stem.  The two Rust slice expressions that can panic, filestem[i + 1..] and
package[0..1], are modelled by the two bounds checks returning
indexOutOfBounds.  On success it returns the destination directory together
with the untouched leaf filename that is joined onto it. -/
def pool_dest (archive filename : Str) : Except PoolError (Str × Str) :=
  let package := packageOf filename
  let filestem := file_stem filename
  if isSourceFile filename then
    if 1 ≤ package.length then
      Except.ok ("repo/pool/".toList ++ archive ++ "/main/source/".toList ++
        package.take 1 ++ ['/'] ++ package, filename)
    else Except.error PoolError.indexOutOfBounds
  else
    let package2 := stripDbgsym package
    let i := (strRfindIdx '_' filestem).getD 0
    if i + 1 ≤ filestem.length then
      let arch := filestem.drop (i + 1)
      if 1 ≤ package2.length then
        Except.ok ("repo/pool/".toList ++ archive ++ "/main/binary-".toList ++
          arch ++ ['/'] ++ package2.take 1 ++ ['/'] ++ package2, filename)
      else Except.error PoolError.indexOutOfBounds
    else Except.error PoolError.indexOutOfBounds

/-- Filesystem and subprocess effects performed by the functions of
src/misc.rs, recorded in order. -/
inductive FsOp
  | createDirAll (path : Str)
  | removeDirAll (path : Str)
  | place (dst : Str)
  | run (tool : Str) (args : List Str)
  deriving DecidableEq

/-- Processing of one file entry inside the loop of fn pool: on a successful
destination computation the code creates the destination directory and then
invokes the caller-supplied action on destination.join(filename); when the
computation panics, no effect has been performed. -/
def pool_file (archive filename : Str) : List FsOp × Option PoolError :=
  match pool_dest archive filename with
  | Except.ok (dir, leaf) =>
    ([FsOp.createDirAll dir, FsOp.place (dir ++ ['/'] ++ leaf)], none)
  | Except.error e => ([], some e)

/-- A directory entry as seen by match_deb: whether it is a directory, the
result of file_name().to_str() and the result of path().to_str() (none models
text that is not valid UTF-8). -/
structure DebEntry where
  isDir : Bool
  fileName : Option Str
  pathStr : Option Str

/-- Rust Iterator::position specialised to equality with a fixed string, as
used by match_deb (src/misc.rs line 33). -/
def position (pkg : Str) : List Str → Option Nat
  | [] => none
  | x :: xs => if x = pkg then some 0 else (position pkg xs).map (· + 1)

/-- match_deb (src/misc.rs lines 24-36): none for directories and for entries
whose file name is not valid UTF-8; a panic (modelled as malformedName) when
the name has no underscore; otherwise the position of the text before the
first underscore in the wanted list, paired with the full path as text, and
none when the position or the path-as-text is absent. -/
def match_deb (e : DebEntry) (packages : List Str) :
    Except PoolError (Option (Str × Nat)) :=
  if e.isDir then Except.ok none
  else
    match e.fileName with
    | none => Except.ok none
    | some name =>
      match strFindIdx '_' name with
      | none => Except.error PoolError.malformedName
      | some i =>
        let package := name.take i
        match position package packages with
        | none => Except.ok none
        | some pos => Except.ok (e.pathStr.map (fun p => (p, pos)))

/-- rsync (src/misc.rs lines 47-63): create_dir_all(src) is invoked when
src.is_dir() holds, then the rsync command runs; a non-zero exit yields the
error message written in the source. -/
def rsync (src dst : Str) (srcIsDir exitSuccess : Bool) :
    List FsOp × Except Str Unit :=
  ((if srcIsDir then [FsOp.createDirAll src] else []) ++
    [FsOp.run "rsync".toList ["-avz".toList, src, dst]],
   if exitSuccess then Except.ok () else Except.error "tar command failed".toList)

/-- unzip (src/misc.rs lines 104-121): remove dst if it exists, recreate it,
run unzip; a non-zero exit yields the error message written in the source. -/
def unzip (path dst : Str) (dstExists exitSuccess : Bool) :
    List FsOp × Except Str Unit :=
  ((if dstExists then [FsOp.removeDirAll dst] else []) ++
    [FsOp.createDirAll dst,
     FsOp.run "unzip".toList [path, "-d".toList, dst]],
   if exitSuccess then Except.ok () else Except.error "tar command failed".toList)

/-- untar (src/misc.rs lines 123-141): remove dst if it exists, recreate it,
run tar; a non-zero exit yields the error message written in the source. -/
def untar (path dst : Str) (dstExists exitSuccess : Bool) :
    List FsOp × Except Str Unit :=
  ((if dstExists then [FsOp.removeDirAll dst] else []) ++
    [FsOp.createDirAll dst,
     FsOp.run "tar".toList
       ["-xvf".toList, path, "-C".toList, dst,
        "--strip-components".toList, "1".toList]],
   if exitSuccess then Except.ok () else Except.error "tar command failed".toList)

theorem strFindIdx_eq_none {c : Char} {s : Str} (h : c ∉ s) : strFindIdx c s = none := by
  induction s with
  | nil => rfl
  | cons a l ih =>
    have ha : ¬(a = c) := fun hac => h (hac ▸ List.mem_cons_self a l)
    rw [strFindIdx, if_neg ha, ih (fun hm => h (List.mem_cons_of_mem a hm))]
    rfl

theorem strFindIdx_append (c : Char) (xs ys : Str) (h : c ∉ xs) :
    strFindIdx c (xs ++ c :: ys) = some xs.length := by
  induction xs with
  | nil => simp [strFindIdx]
  | cons a l ih =>
    have ha : ¬(a = c) := fun hac => h (hac ▸ List.mem_cons_self a l)
    rw [List.cons_append, strFindIdx, if_neg ha,
      ih (fun hm => h (List.mem_cons_of_mem a hm))]
    rfl

theorem strRfindIdx_eq_none {c : Char} {s : Str} (h : c ∉ s) : strRfindIdx c s = none := by
  induction s with
  | nil => rfl
  | cons a l ih =>
    have ha : ¬(a = c) := fun hac => h (hac ▸ List.mem_cons_self a l)
    rw [strRfindIdx, ih (fun hm => h (List.mem_cons_of_mem a hm))]
    simp [ha]

theorem strRfindIdx_append (c : Char) (xs ys : Str) (h : c ∉ ys) :
    strRfindIdx c (xs ++ c :: ys) = some xs.length := by
  induction xs with
  | nil =>
    rw [List.nil_append, strRfindIdx, strRfindIdx_eq_none h]
    simp
  | cons a l ih =>
    rw [List.cons_append, strRfindIdx, ih]
    simp

theorem strEndsWith_append (pat xs : Str) : strEndsWith pat (xs ++ pat) = true := by
  simp [strEndsWith, List.drop_left]

theorem drop_length_add (xs ys : Str) (n : Nat) :
    (xs ++ ys).drop (xs.length + n) = ys.drop n := by
  rw [← List.drop_drop, List.drop_left]

theorem strEndsWith_append_right (pat xs ys : Str) (h : pat.length ≤ ys.length) :
    strEndsWith pat (xs ++ ys) = strEndsWith pat ys := by
  simp only [strEndsWith, List.length_append]
  have he : xs.length + ys.length - pat.length = xs.length + (ys.length - pat.length) := by
    omega
  rw [he, drop_length_add]

theorem strEndsWith_length_le {pat s : Str} (h : strEndsWith pat s = true) :
    pat.length ≤ s.length := by
  by_contra hc
  simp only [strEndsWith, decide_eq_true_eq] at h
  have h0 : s.length - pat.length = 0 := by omega
  rw [h0, List.drop_zero] at h
  rw [h] at hc
  exact hc (Nat.le_refl _)

theorem strEndsWith_drop {pat s : Str} (k : Nat) (h : strEndsWith pat s = true) :
    strEndsWith (pat.drop k) s = true := by
  have hle := strEndsWith_length_le h
  simp only [strEndsWith, decide_eq_true_eq] at h ⊢
  by_cases hk : k ≤ pat.length
  · have he : s.length - (pat.drop k).length = (s.length - pat.length) + k := by
      simp only [List.length_drop]
      omega
    rw [he, ← List.drop_drop, h]
  · have hp : pat.drop k = [] := List.drop_eq_nil_of_le (by omega)
    rw [hp, List.length_nil, Nat.sub_zero]
    exact List.drop_eq_nil_of_le (Nat.le_refl _)

theorem strEndsWith_unique {a b s : Str} (hlen : a.length = b.length)
    (ha : strEndsWith a s = true) (hb : strEndsWith b s = true) : a = b := by
  simp only [strEndsWith, decide_eq_true_eq] at ha hb
  rw [← ha, ← hb, hlen]

theorem isSourceFile_deb (xs : Str) : isSourceFile (xs ++ ".deb".toList) = false := by
  have h1 : strEndsWith "dsc".toList (xs ++ ".deb".toList) = false := by
    rw [strEndsWith_append_right _ _ _ (by decide)]
    decide
  have h2 : strEndsWith "tar.xz".toList (xs ++ ".deb".toList) = false := by
    by_contra hc
    rw [Bool.not_eq_false] at hc
    have h4 := strEndsWith_drop 2 hc
    have hdeb := strEndsWith_append ".deb".toList xs
    have h5 := strEndsWith_unique (by decide) h4 hdeb
    exact absurd h5 (by decide)
  unfold isSourceFile
  rw [h1, h2]
  rfl

theorem packageOf_append (P rest : Str) (h : '_' ∉ P) :
    packageOf (P ++ '_' :: rest) = P := by
  unfold packageOf
  rw [strFindIdx_append '_' P rest h]
  exact List.take_left P ('_' :: rest)

theorem packageOf_none {f : Str} (h : strFindIdx '_' f = none) : packageOf f = [] := by
  unfold packageOf
  rw [h]
  rfl

theorem file_stem_append (xs ys : Str) (hx : xs ≠ []) (hy : '.' ∉ ys) :
    file_stem (xs ++ '.' :: ys) = xs := by
  unfold file_stem
  rw [strRfindIdx_append '.' xs ys hy]
  obtain ⟨n, hn⟩ : ∃ n, xs.length = n + 1 := by
    cases xs with
    | nil => exact absurd rfl hx
    | cons a l => exact ⟨l.length, rfl⟩
  rw [hn]
  show (xs ++ '.' :: ys).take (n + 1) = xs
  exact List.take_left' hn

theorem stripDbgsym_of_neg {p : Str} (h : strEndsWith "-dbgsym".toList p = false) :
    stripDbgsym p = p := by
  unfold stripDbgsym
  rw [h]
  rfl

theorem stripDbgsym_append (P : Str) : stripDbgsym (P ++ "-dbgsym".toList) = P := by
  unfold stripDbgsym
  rw [strEndsWith_append, if_pos rfl, List.length_append,
    (by decide : ("-dbgsym".toList : Str).length = 7), Nat.add_sub_cancel]
  exact List.take_left P _

theorem length_pos_of_ne_nil {l : Str} (h : l ≠ []) : 1 ≤ l.length := by
  cases l with
  | nil => exact absurd rfl h
  | cons a t => simp

theorem pool_dest_source (archive f : Str) (hs : isSourceFile f = true)
    (hp : packageOf f ≠ []) :
    pool_dest archive f =
      Except.ok ("repo/pool/".toList ++ archive ++ "/main/source/".toList ++
        (packageOf f).take 1 ++ ['/'] ++ packageOf f, f) := by
  have h1 : 1 ≤ (packageOf f).length := length_pos_of_ne_nil hp
  simp only [pool_dest, hs, if_true, if_pos h1]

theorem pool_dest_binary (archive f : Str) (hs : isSourceFile f = false)
    (hb : (strRfindIdx '_' (file_stem f)).getD 0 + 1 ≤ (file_stem f).length)
    (hp : stripDbgsym (packageOf f) ≠ []) :
    pool_dest archive f =
      Except.ok ("repo/pool/".toList ++ archive ++ "/main/binary-".toList ++
        archFromStem (file_stem f) ++ ['/'] ++
        (stripDbgsym (packageOf f)).take 1 ++ ['/'] ++
        stripDbgsym (packageOf f), f) := by
  have h1 : 1 ≤ (stripDbgsym (packageOf f)).length := length_pos_of_ne_nil hp
  simp only [pool_dest, hs, Bool.false_eq_true, if_false, if_pos hb, if_pos h1,
    archFromStem]

theorem pool_dest_empty (archive f : Str) (hp : displayPackage f = []) :
    pool_dest archive f = Except.error PoolError.indexOutOfBounds := by
  by_cases hs : isSourceFile f = true
  · have hpk : packageOf f = [] := by
      unfold displayPackage at hp
      rw [hs, if_pos rfl] at hp
      exact hp
    have h0 : ¬(1 ≤ (packageOf f).length) := by
      rw [hpk]
      simp
    simp only [pool_dest, hs, if_true, if_neg h0]
  · rw [Bool.not_eq_true] at hs
    have hpk : stripDbgsym (packageOf f) = [] := by
      unfold displayPackage at hp
      rw [hs] at hp
      simpa using hp
    have h0 : ¬(1 ≤ (stripDbgsym (packageOf f)).length) := by
      rw [hpk]
      simp
    by_cases hb : (strRfindIdx '_' (file_stem f)).getD 0 + 1 ≤ (file_stem f).length
    · simp only [pool_dest, hs, Bool.false_eq_true, if_false, if_pos hb, if_neg h0]
    · simp only [pool_dest, hs, Bool.false_eq_true, if_false, if_neg hb]

theorem pool_dest_ok_shape {archive f dir leaf : Str}
    (h : pool_dest archive f = Except.ok (dir, leaf)) :
    leaf = f ∧ displayPackage f ≠ [] ∧
    ((isSourceFile f = true ∧
        dir = "repo/pool/".toList ++ archive ++ "/main/source/".toList ++
          (displayPackage f).take 1 ++ ['/'] ++ displayPackage f) ∨
     (isSourceFile f = false ∧
        dir = "repo/pool/".toList ++ archive ++ "/main/binary-".toList ++
          archFromStem (file_stem f) ++ ['/'] ++
          (displayPackage f).take 1 ++ ['/'] ++ displayPackage f)) := by
  by_cases hs : isSourceFile f = true
  · have hd : displayPackage f = packageOf f := by
      unfold displayPackage
      rw [hs, if_pos rfl]
    by_cases h1 : 1 ≤ (packageOf f).length
    · rw [pool_dest_source archive f hs (by
        intro hq
        rw [hq] at h1
        simp at h1)] at h
      injection h with h
      injection h with hdir hleaf
      refine ⟨hleaf.symm, ?_, Or.inl ⟨hs, ?_⟩⟩
      · rw [hd]
        intro hq
        rw [hq] at h1
        simp at h1
      · rw [hd, ← hdir]
    · have : pool_dest archive f = Except.error PoolError.indexOutOfBounds := by
        apply pool_dest_empty
        rw [hd]
        cases hq : packageOf f with
        | nil => rfl
        | cons a t =>
          rw [hq] at h1
          simp at h1
      rw [this] at h
      exact absurd h (by simp)
  · rw [Bool.not_eq_true] at hs
    have hd : displayPackage f = stripDbgsym (packageOf f) := by
      unfold displayPackage
      rw [hs]
      simp
    by_cases hb : (strRfindIdx '_' (file_stem f)).getD 0 + 1 ≤ (file_stem f).length
    · by_cases h1 : 1 ≤ (stripDbgsym (packageOf f)).length
      · rw [pool_dest_binary archive f hs hb (by
          intro hq
          rw [hq] at h1
          simp at h1)] at h
        injection h with h
        injection h with hdir hleaf
        refine ⟨hleaf.symm, ?_, Or.inr ⟨hs, ?_⟩⟩
        · rw [hd]
          intro hq
          rw [hq] at h1
          simp at h1
        · rw [hd, ← hdir]
      · have : pool_dest archive f = Except.error PoolError.indexOutOfBounds := by
          apply pool_dest_empty
          rw [hd]
          cases hq : stripDbgsym (packageOf f) with
          | nil => rfl
          | cons a t =>
            rw [hq] at h1
            simp at h1
        rw [this] at h
        exact absurd h (by simp)
    · have : pool_dest archive f = Except.error PoolError.indexOutOfBounds := by
        simp only [pool_dest, hs, Bool.false_eq_true, if_false, if_neg hb]
      rw [this] at h
      exact absurd h (by simp)

theorem isSourceFile_dsc (xs : Str) : isSourceFile (xs ++ ".dsc".toList) = true := by
  unfold isSourceFile
  have hf : xs ++ ".dsc".toList = (xs ++ ['.']) ++ "dsc".toList := by
    rw [(by decide : (".dsc".toList : Str) = '.' :: "dsc".toList)]
    simp
  rw [hf, strEndsWith_append]
  rfl

theorem isSourceFile_tarxz (xs : Str) : isSourceFile (xs ++ ".tar.xz".toList) = true := by
  unfold isSourceFile
  have hf : xs ++ ".tar.xz".toList = (xs ++ ".".toList) ++ "tar.xz".toList := by
    rw [(by decide : (".tar.xz".toList : Str) = ".".toList ++ "tar.xz".toList)]
    simp
  rw [hf, strEndsWith_append]
  simp

theorem pool_dest_deb (archive Q V A : Str) (hQ : '_' ∉ Q) (hA : '_' ∉ A)
    (hstrip : stripDbgsym Q ≠ []) :
    pool_dest archive (Q ++ ['_'] ++ V ++ ['_'] ++ A ++ ".deb".toList) =
      Except.ok ("repo/pool/".toList ++ archive ++ "/main/binary-".toList ++ A ++
        ['/'] ++ (stripDbgsym Q).take 1 ++ ['/'] ++ stripDbgsym Q,
        Q ++ ['_'] ++ V ++ ['_'] ++ A ++ ".deb".toList) := by
  have hpk : packageOf (Q ++ ['_'] ++ V ++ ['_'] ++ A ++ ".deb".toList) = Q := by
    have hf : Q ++ ['_'] ++ V ++ ['_'] ++ A ++ ".deb".toList
        = Q ++ '_' :: (V ++ ['_'] ++ A ++ ".deb".toList) := by simp
    rw [hf, packageOf_append _ _ hQ]
  have hsrc : isSourceFile (Q ++ ['_'] ++ V ++ ['_'] ++ A ++ ".deb".toList) = false := by
    have hf : Q ++ ['_'] ++ V ++ ['_'] ++ A ++ ".deb".toList
        = (Q ++ ['_'] ++ V ++ ['_'] ++ A) ++ ".deb".toList := by simp
    rw [hf]
    exact isSourceFile_deb _
  have hstem : file_stem (Q ++ ['_'] ++ V ++ ['_'] ++ A ++ ".deb".toList)
      = Q ++ ['_'] ++ V ++ ['_'] ++ A := by
    have hf : Q ++ ['_'] ++ V ++ ['_'] ++ A ++ ".deb".toList
        = (Q ++ ['_'] ++ V ++ ['_'] ++ A) ++ '.' :: "deb".toList := by
      rw [(by decide : (".deb".toList : Str) = '.' :: "deb".toList)]
    rw [hf]
    exact file_stem_append _ _ (by simp) (by decide)
  have hrf : strRfindIdx '_' (Q ++ ['_'] ++ V ++ ['_'] ++ A)
      = some (Q.length + 1 + V.length) := by
    have hf : Q ++ ['_'] ++ V ++ ['_'] ++ A = (Q ++ ['_'] ++ V) ++ '_' :: A := by simp
    rw [hf, strRfindIdx_append '_' _ _ hA]
    simp
    omega
  have harch : archFromStem (Q ++ ['_'] ++ V ++ ['_'] ++ A) = A := by
    unfold archFromStem
    rw [hrf]
    simp only [Option.getD_some]
    have hf : Q ++ ['_'] ++ V ++ ['_'] ++ A = ((Q ++ ['_'] ++ V) ++ ['_']) ++ A := by
      simp
    rw [hf]
    refine List.drop_left' ?_
    simp
    omega
  have hb : (strRfindIdx '_'
        (file_stem (Q ++ ['_'] ++ V ++ ['_'] ++ A ++ ".deb".toList))).getD 0 + 1
      ≤ (file_stem (Q ++ ['_'] ++ V ++ ['_'] ++ A ++ ".deb".toList)).length := by
    rw [hstem, hrf]
    simp
    omega
  rw [pool_dest_binary archive _ hsrc hb (by rw [hpk]; exact hstrip),
    hpk, hstem, harch]

theorem pool_dest_src (archive P rest : Str) (hP : P ≠ []) (hPu : '_' ∉ P)
    (hsrc : isSourceFile (P ++ '_' :: rest) = true) :
    pool_dest archive (P ++ '_' :: rest) =
      Except.ok ("repo/pool/".toList ++ archive ++ "/main/source/".toList ++
        P.take 1 ++ ['/'] ++ P, P ++ '_' :: rest) := by
  have hpk := packageOf_append P rest hPu
  rw [pool_dest_source archive _ hsrc (by rw [hpk]; exact hP), hpk]

/-- C1: for every well-formed package filename, pool placement resolves it to
the layered pool layout under the hardcoded repo root: a binary file
P_V_A.deb goes to repo/pool/{archive}/main/binary-A/{P[0]}/P with the
original filename appended as the leaf, and a source file P_V.dsc or
P_V.orig.tar.xz goes to repo/pool/{archive}/main/source/{P[0]}/P with the
original filename appended as the leaf. -/
theorem C1_resolve_layout :
    (∀ archive P V A : Str, P ≠ [] → '_' ∉ P → '_' ∉ A →
      strEndsWith "-dbgsym".toList P = false →
      pool_dest archive (P ++ ['_'] ++ V ++ ['_'] ++ A ++ ".deb".toList) =
        Except.ok ("repo/pool/".toList ++ archive ++ "/main/binary-".toList ++ A ++
          ['/'] ++ P.take 1 ++ ['/'] ++ P,
          P ++ ['_'] ++ V ++ ['_'] ++ A ++ ".deb".toList)) ∧
    (∀ archive P V : Str, P ≠ [] → '_' ∉ P →
      pool_dest archive (P ++ ['_'] ++ V ++ ".dsc".toList) =
        Except.ok ("repo/pool/".toList ++ archive ++ "/main/source/".toList ++
          P.take 1 ++ ['/'] ++ P, P ++ ['_'] ++ V ++ ".dsc".toList)) ∧
    (∀ archive P V : Str, P ≠ [] → '_' ∉ P →
      pool_dest archive (P ++ ['_'] ++ V ++ ".orig.tar.xz".toList) =
        Except.ok ("repo/pool/".toList ++ archive ++ "/main/source/".toList ++
          P.take 1 ++ ['/'] ++ P, P ++ ['_'] ++ V ++ ".orig.tar.xz".toList)) := by
  refine ⟨?_, ?_, ?_⟩
  · intro archive P V A hP hPu hAu hdbg
    have h := pool_dest_deb archive P V A hPu hAu
      (by rw [stripDbgsym_of_neg hdbg]; exact hP)
    rw [stripDbgsym_of_neg hdbg] at h
    exact h
  · intro archive P V hP hPu
    have hf : P ++ ['_'] ++ V ++ ".dsc".toList = P ++ '_' :: (V ++ ".dsc".toList) := by
      simp
    rw [hf]
    apply pool_dest_src archive P _ hP hPu
    have hg : P ++ '_' :: (V ++ ".dsc".toList) = (P ++ '_' :: V) ++ ".dsc".toList := by
      simp
    rw [hg]
    exact isSourceFile_dsc _
  · intro archive P V hP hPu
    have hf : P ++ ['_'] ++ V ++ ".orig.tar.xz".toList
        = P ++ '_' :: (V ++ ".orig.tar.xz".toList) := by
      simp
    rw [hf]
    apply pool_dest_src archive P _ hP hPu
    have hg : P ++ '_' :: (V ++ ".orig.tar.xz".toList)
        = ((P ++ '_' :: V) ++ ".orig".toList) ++ ".tar.xz".toList := by
      rw [(by decide : (".orig.tar.xz".toList : Str) = ".orig".toList ++ ".tar.xz".toList)]
      simp
    rw [hg]
    exact isSourceFile_tarxz _

/-- C1 witness: the three layout statements evaluated at concrete inputs. -/
theorem C1_resolve_layout_witness :
    pool_dest "bionic".toList "foo_1.0_amd64.deb".toList =
      Except.ok ("repo/pool/bionic/main/binary-amd64/f/foo".toList,
        "foo_1.0_amd64.deb".toList) ∧
    pool_dest "bionic".toList "foo_1.0.dsc".toList =
      Except.ok ("repo/pool/bionic/main/source/f/foo".toList,
        "foo_1.0.dsc".toList) ∧
    pool_dest "bionic".toList "foo_1.0.orig.tar.xz".toList =
      Except.ok ("repo/pool/bionic/main/source/f/foo".toList,
        "foo_1.0.orig.tar.xz".toList) :=
  ⟨C1_resolve_layout.1 "bionic".toList "foo".toList "1.0".toList "amd64".toList
      (by decide) (by decide) (by decide) (by decide),
   C1_resolve_layout.2.1 "bionic".toList "foo".toList "1.0".toList
      (by decide) (by decide),
   C1_resolve_layout.2.2 "bionic".toList "foo".toList "1.0".toList
      (by decide) (by decide)⟩

/-- C5: a debug-symbol package filename P-dbgsym_V_A.deb resolves to a
destination directory whose first-letter bucket and package segment both use
the stripped name P, while the leaf filename joined onto that directory is
the untouched original P-dbgsym_V_A.deb. -/
theorem C5_dbgsym_resolution :
    ∀ archive P V A : Str, P ≠ [] → '_' ∉ P → '_' ∉ A →
      pool_dest archive
        (P ++ "-dbgsym".toList ++ ['_'] ++ V ++ ['_'] ++ A ++ ".deb".toList) =
        Except.ok ("repo/pool/".toList ++ archive ++ "/main/binary-".toList ++ A ++
          ['/'] ++ P.take 1 ++ ['/'] ++ P,
          P ++ "-dbgsym".toList ++ ['_'] ++ V ++ ['_'] ++ A ++ ".deb".toList) := by
  intro archive P V A hP hPu hAu
  have hQ : '_' ∉ P ++ "-dbgsym".toList := by
    intro hm
    rcases List.mem_append.mp hm with hx | hx
    · exact hPu hx
    · exact absurd hx (by decide)
  have h := pool_dest_deb archive (P ++ "-dbgsym".toList) V A hQ hAu
    (by rw [stripDbgsym_append]; exact hP)
  rw [stripDbgsym_append] at h
  exact h

/-- C5 witness at a concrete debug-symbol filename. -/
theorem C5_dbgsym_resolution_witness :
    pool_dest "bionic".toList "foo-dbgsym_1.0_amd64.deb".toList =
      Except.ok ("repo/pool/bionic/main/binary-amd64/f/foo".toList,
        "foo-dbgsym_1.0_amd64.deb".toList) :=
  C5_dbgsym_resolution "bionic".toList "foo".toList "1.0".toList "amd64".toList
    (by decide) (by decide) (by decide)

theorem displayPackage_nil {f : Str} (h : packageOf f = []) : displayPackage f = [] := by
  unfold displayPackage
  rw [h, (by decide : stripDbgsym ([] : Str) = [])]
  simp

/-- C2 counterexample: for the underscore-free name readme.deb the package
parse of fn pool does not fail (it silently yields the empty package via
unwrap_or(0)), and the destination computation then fails with an index
panic, not with a MalformedName error. -/
theorem C2_counterexample :
    packageOf "readme.deb".toList = [] ∧
    pool_dest "x".toList "readme.deb".toList ≠
      Except.error PoolError.malformedName ∧
    pool_dest "x".toList "readme.deb".toList =
      Except.error PoolError.indexOutOfBounds := by
  refine ⟨by decide, by decide, by decide⟩

/-- C2 (amended): a filename with no underscore makes match_deb fail with the
MalformedName panic; the parse in fn pool does not fail but defaults the package
to the empty string, and its destination computation then fails with an
index-out-of-bounds panic at the first-letter bucket slice; in both
operations no pool destination is produced and no directory is created. -/
theorem C2_no_underscore :
    (∀ (e : DebEntry) (pkgs : List Str) (n : Str),
      e.isDir = false → e.fileName = some n → strFindIdx '_' n = none →
      match_deb e pkgs = Except.error PoolError.malformedName) ∧
    (∀ archive f : Str, strFindIdx '_' f = none →
      pool_dest archive f = Except.error PoolError.indexOutOfBounds ∧
      (pool_file archive f).1 = []) := by
  constructor
  · intro e pkgs n hd hn hu
    simp [match_deb, hd, hn, hu]
  · intro archive f hu
    have hdp := displayPackage_nil (packageOf_none hu)
    refine ⟨pool_dest_empty archive f hdp, ?_⟩
    unfold pool_file
    rw [pool_dest_empty archive f hdp]

/-- C2 witness at underscore-free concrete names. -/
theorem C2_no_underscore_witness :
    match_deb ⟨false, some "readme.deb".toList, some "/tmp/readme.deb".toList⟩
      ["foo".toList] = Except.error PoolError.malformedName ∧
    pool_dest "x".toList "justfile".toList =
      Except.error PoolError.indexOutOfBounds ∧
    (pool_file "x".toList "justfile".toList).1 = [] :=
  ⟨C2_no_underscore.1 _ _ "readme.deb".toList rfl rfl (by decide),
   (C2_no_underscore.2 "x".toList "justfile".toList (by decide)).1,
   (C2_no_underscore.2 "x".toList "justfile".toList (by decide)).2⟩

/-- C3 counterexample: foo_1dsc ends with the bare suffix dsc but not with
.dsc or .tar.xz, yet the code classifies it as a source artifact and routes
it to the source tree instead of the binary branch. -/
theorem C3_counterexample :
    isSourceFile "foo_1dsc".toList = true ∧
    strEndsWith ".dsc".toList "foo_1dsc".toList = false ∧
    strEndsWith ".tar.xz".toList "foo_1dsc".toList = false ∧
    pool_dest "x".toList "foo_1dsc".toList =
      Except.ok ("repo/pool/x/main/source/f/foo".toList, "foo_1dsc".toList) := by
  refine ⟨by decide, by decide, by decide, by decide⟩

/-- C3 (amended): classification tests the undotted suffixes dsc and tar.xz:
every filename ending in .dsc or .tar.xz is source, but so is any filename
ending in the bare suffix dsc or tar.xz; every filename matching neither
suffix is routed to the binary branch of the resolved directory. -/
theorem C3_source_classification :
    (∀ f : Str, strEndsWith ".dsc".toList f = true → isSourceFile f = true) ∧
    (∀ f : Str, strEndsWith ".tar.xz".toList f = true → isSourceFile f = true) ∧
    (∀ archive f dir leaf : Str, pool_dest archive f = Except.ok (dir, leaf) →
      (isSourceFile f = true →
        dir = "repo/pool/".toList ++ archive ++ "/main/source/".toList ++
          (displayPackage f).take 1 ++ ['/'] ++ displayPackage f) ∧
      (isSourceFile f = false →
        dir = "repo/pool/".toList ++ archive ++ "/main/binary-".toList ++
          archFromStem (file_stem f) ++ ['/'] ++
          (displayPackage f).take 1 ++ ['/'] ++ displayPackage f)) := by
  refine ⟨?_, ?_, ?_⟩
  · intro f h
    have h2 := strEndsWith_drop 1 h
    rw [(by decide : ((".dsc".toList : Str).drop 1) = "dsc".toList)] at h2
    unfold isSourceFile
    rw [h2]
    rfl
  · intro f h
    have h2 := strEndsWith_drop 1 h
    rw [(by decide : ((".tar.xz".toList : Str).drop 1) = "tar.xz".toList)] at h2
    unfold isSourceFile
    rw [h2]
    simp
  · intro archive f dir leaf h
    obtain ⟨_, _, hshape⟩ := pool_dest_ok_shape h
    constructor
    · intro hs
      rcases hshape with ⟨_, hdir⟩ | ⟨hs2, _⟩
      · exact hdir
      · rw [hs] at hs2
        exact absurd hs2 (by decide)
    · intro hs
      rcases hshape with ⟨hs2, _⟩ | ⟨_, hdir⟩
      · rw [hs] at hs2
        exact absurd hs2 (by decide)
      · exact hdir

/-- C3 witness: dotted names are source, and the routing shape evaluated at a
concrete resolution. -/
theorem C3_source_classification_witness :
    isSourceFile "bar_2.dsc".toList = true ∧
    isSourceFile "bar_2.tar.xz".toList = true ∧
    "repo/pool/x/main/source/f/foo".toList =
      "repo/pool/".toList ++ "x".toList ++ "/main/source/".toList ++
        (displayPackage "foo_1dsc".toList).take 1 ++ ['/'] ++
        displayPackage "foo_1dsc".toList :=
  ⟨C3_source_classification.1 "bar_2.dsc".toList (by decide),
   C3_source_classification.2.1 "bar_2.tar.xz".toList (by decide),
   (C3_source_classification.2.2 "x".toList "foo_1dsc".toList
      "repo/pool/x/main/source/f/foo".toList "foo_1dsc".toList
      (by decide)).1 (by decide)⟩

/-- C4 counterexample: the non-source filename a.b_c has file stem a with no
underscore; the code slices the architecture from index 1, producing the
empty architecture segment binary- rather than the full stem a. -/
theorem C4_counterexample :
    isSourceFile "a.b_c".toList = false ∧
    file_stem "a.b_c".toList = "a".toList ∧
    strFindIdx '_' (file_stem "a.b_c".toList) = none ∧
    pool_dest "x".toList "a.b_c".toList =
      Except.ok ("repo/pool/x/main/binary-/a/a.b".toList, "a.b_c".toList) ∧
    pool_dest "x".toList "a.b_c".toList ≠
      Except.ok ("repo/pool/x/main/binary-a/a/a.b".toList, "a.b_c".toList) := by
  refine ⟨by decide, by decide, by decide, by decide, by decide⟩

/-- C4 (amended): for every successfully resolved non-source filename the
binary architecture segment is the stem sliced from rfind(underscore)+1:
the substring after the last underscore when the stem contains one, and the
stem minus its first character (not the entire stem) when it contains
none. -/
theorem C4_arch_slice :
    (∀ archive f dir leaf : Str, pool_dest archive f = Except.ok (dir, leaf) →
      isSourceFile f = false →
      dir = "repo/pool/".toList ++ archive ++ "/main/binary-".toList ++
        archFromStem (file_stem f) ++ ['/'] ++
        (displayPackage f).take 1 ++ ['/'] ++ displayPackage f) ∧
    (∀ xs A : Str, '_' ∉ A → archFromStem (xs ++ '_' :: A) = A) ∧
    (∀ s : Str, '_' ∉ s → archFromStem s = s.drop 1) := by
  refine ⟨?_, ?_, ?_⟩
  · intro archive f dir leaf h hs
    obtain ⟨_, _, hshape⟩ := pool_dest_ok_shape h
    rcases hshape with ⟨hs2, _⟩ | ⟨_, hdir⟩
    · rw [hs] at hs2
      exact absurd hs2 (by decide)
    · exact hdir
  · intro xs A hA
    unfold archFromStem
    rw [strRfindIdx_append '_' xs A hA]
    simp only [Option.getD_some]
    have hf : xs ++ '_' :: A = (xs ++ ['_']) ++ A := by simp
    rw [hf]
    refine List.drop_left' ?_
    simp
  · intro s hs
    unfold archFromStem
    rw [strRfindIdx_eq_none hs]
    rfl

/-- C4 witness: the slice evaluated at a stem with an underscore, at one
without, and at the concrete resolution of a.b_c. -/
theorem C4_arch_slice_witness :
    "repo/pool/x/main/binary-/a/a.b".toList =
      "repo/pool/".toList ++ "x".toList ++ "/main/binary-".toList ++
        archFromStem (file_stem "a.b_c".toList) ++ ['/'] ++
        (displayPackage "a.b_c".toList).take 1 ++ ['/'] ++
        displayPackage "a.b_c".toList ∧
    archFromStem "P_amd64".toList = "amd64".toList ∧
    archFromStem "abc".toList = "bc".toList :=
  ⟨C4_arch_slice.1 "x".toList "a.b_c".toList
      "repo/pool/x/main/binary-/a/a.b".toList "a.b_c".toList
      (by decide) (by decide),
   C4_arch_slice.2.1 "P".toList "amd64".toList (by decide),
   C4_arch_slice.2.2 "abc".toList (by decide)⟩

/-- C6 counterexample: the parsed package of _1.0_amd64.deb is the empty
string; instead of succeeding with an empty first-letter bucket, the path
computation fails with the index panic of the package[0..1] slice. -/
theorem C6_counterexample :
    displayPackage "_1.0_amd64.deb".toList = [] ∧
    pool_dest "x".toList "_1.0_amd64.deb".toList =
      Except.error PoolError.indexOutOfBounds := by
  refine ⟨by decide, by decide⟩

/-- C6 (amended): whenever resolution succeeds, the first-letter bucket
segment equals the first character of the post-strip package name, which is
then necessarily nonempty; when that package name is empty the path
computation does not succeed with an empty bucket but fails with an
index-out-of-bounds panic, so no destination is produced. -/
theorem C6_bucket_first_char :
    (∀ archive f dir leaf : Str, pool_dest archive f = Except.ok (dir, leaf) →
      displayPackage f ≠ [] ∧
      ∃ mid : Str, dir = "repo/pool/".toList ++ archive ++ mid ++
        (displayPackage f).take 1 ++ ['/'] ++ displayPackage f) ∧
    (∀ archive f : Str, displayPackage f = [] →
      pool_dest archive f = Except.error PoolError.indexOutOfBounds) := by
  constructor
  · intro archive f dir leaf h
    obtain ⟨_, hne, hshape⟩ := pool_dest_ok_shape h
    refine ⟨hne, ?_⟩
    rcases hshape with ⟨_, hdir⟩ | ⟨_, hdir⟩
    · exact ⟨"/main/source/".toList, hdir⟩
    · refine ⟨"/main/binary-".toList ++ archFromStem (file_stem f) ++ ['/'], ?_⟩
      rw [hdir]
      simp
  · exact fun archive f h => pool_dest_empty archive f h

/-- C6 witness: a successful resolution with a nonempty bucket, and the
failing computation on an empty package name. -/
theorem C6_bucket_first_char_witness :
    (displayPackage "foo_1.0_amd64.deb".toList ≠ [] ∧
      ∃ mid : Str, "repo/pool/x/main/binary-amd64/f/foo".toList =
        "repo/pool/".toList ++ "x".toList ++ mid ++
          (displayPackage "foo_1.0_amd64.deb".toList).take 1 ++ ['/'] ++
          displayPackage "foo_1.0_amd64.deb".toList) ∧
    pool_dest "y".toList "_1.deb".toList =
      Except.error PoolError.indexOutOfBounds :=
  ⟨C6_bucket_first_char.1 "x".toList "foo_1.0_amd64.deb".toList
      "repo/pool/x/main/binary-amd64/f/foo".toList "foo_1.0_amd64.deb".toList
      (by decide),
   C6_bucket_first_char.2 "y".toList "_1.deb".toList (by decide)⟩

theorem position_eq_none_iff (pkg : Str) (l : List Str) :
    position pkg l = none ↔ pkg ∉ l := by
  induction l with
  | nil => simp [position]
  | cons x xs ih =>
    by_cases hx : x = pkg
    · subst hx
      simp [position]
    · have hx2 : ¬(pkg = x) := fun h => hx h.symm
      simp [position, hx, Option.map_eq_none', ih, hx2]

/-- C7: match_deb returns none for every directory entry; for a file entry
whose UTF-8 name contains an underscore and whose path is UTF-8 text, it
returns the full path as text paired with the index of the text before the
first underscore in the wanted list when that prefix occurs there, and none
when the prefix does not occur; in particular against the wanted list
[foo, bar] the file bar_1.0_amd64.deb yields index 1 and baz_1.0_amd64.deb
yields none. -/
theorem C7_match_deb :
    (∀ (e : DebEntry) (pkgs : List Str), e.isDir = true →
      match_deb e pkgs = Except.ok none) ∧
    (∀ (e : DebEntry) (pkgs : List Str) (n p : Str) (i pos : Nat),
      e.isDir = false → e.fileName = some n → e.pathStr = some p →
      strFindIdx '_' n = some i → position (n.take i) pkgs = some pos →
      match_deb e pkgs = Except.ok (some (p, pos))) ∧
    (∀ (e : DebEntry) (pkgs : List Str) (n : Str) (i : Nat),
      e.isDir = false → e.fileName = some n →
      strFindIdx '_' n = some i → n.take i ∉ pkgs →
      match_deb e pkgs = Except.ok none) ∧
    (match_deb ⟨false, some "bar_1.0_amd64.deb".toList,
        some "/p/bar_1.0_amd64.deb".toList⟩ ["foo".toList, "bar".toList] =
      Except.ok (some ("/p/bar_1.0_amd64.deb".toList, 1))) ∧
    (match_deb ⟨false, some "baz_1.0_amd64.deb".toList,
        some "/p/baz_1.0_amd64.deb".toList⟩ ["foo".toList, "bar".toList] =
      Except.ok none) := by
  refine ⟨?_, ?_, ?_, by decide, by decide⟩
  · intro e pkgs hd
    simp [match_deb, hd]
  · intro e pkgs n p i pos hd hn hp hi hpos
    simp [match_deb, hd, hn, hp, hi, hpos]
  · intro e pkgs n i hd hn hi hmem
    have hpos : position (n.take i) pkgs = none := (position_eq_none_iff _ _).mpr hmem
    simp [match_deb, hd, hn, hi, hpos]

/-- C7 witness: a directory entry, a matched file and an unmatched file at
concrete inputs. -/
theorem C7_match_deb_witness :
    match_deb ⟨true, some "bar_1.0_amd64.deb".toList, some "/p".toList⟩ [] =
      Except.ok none ∧
    match_deb ⟨false, some "qux_2.deb".toList, some "/q/qux_2.deb".toList⟩
      ["qux".toList] = Except.ok (some ("/q/qux_2.deb".toList, 0)) ∧
    match_deb ⟨false, some "qux_2.deb".toList, some "/q/qux_2.deb".toList⟩
      ["foo".toList] = Except.ok none :=
  ⟨C7_match_deb.1 _ _ rfl,
   C7_match_deb.2.1 _ _ "qux_2.deb".toList "/q/qux_2.deb".toList 3 0 rfl rfl rfl
     (by decide) (by decide),
   C7_match_deb.2.2.1 _ _ "qux_2.deb".toList 3 rfl rfl (by decide) (by decide)⟩

/-- C10: even when the file name contains an underscore and its package
prefix occurs in the wanted list, match_deb still returns none when the full
path is not representable as UTF-8 text; a some-result implies that both the
file name and the complete path were valid UTF-8 text. -/
theorem C10_match_utf8_path :
    (∀ (e : DebEntry) (pkgs : List Str) (n : Str) (i pos : Nat),
      e.isDir = false → e.fileName = some n → strFindIdx '_' n = some i →
      position (n.take i) pkgs = some pos → e.pathStr = none →
      match_deb e pkgs = Except.ok none) ∧
    (∀ (e : DebEntry) (pkgs : List Str) (r : Str × Nat),
      match_deb e pkgs = Except.ok (some r) →
      (∃ n, e.fileName = some n) ∧ (∃ p, e.pathStr = some p)) := by
  constructor
  · intro e pkgs n i pos hd hn hi hpos hp
    simp [match_deb, hd, hn, hi, hpos, hp]
  · intro e pkgs r h
    unfold match_deb at h
    split at h
    · simp at h
    · cases hn : e.fileName with
      | none =>
        simp only [hn] at h
        simp at h
      | some n =>
        simp only [hn] at h
        cases hi : strFindIdx '_' n with
        | none =>
          simp only [hi] at h
          simp at h
        | some i =>
          simp only [hi] at h
          cases hpos : position (n.take i) pkgs with
          | none =>
            simp only [hpos] at h
            simp at h
          | some pos =>
            simp only [hpos] at h
            refine ⟨⟨n, rfl⟩, ?_⟩
            cases hp : e.pathStr with
            | none =>
              simp only [hp] at h
              simp at h
            | some p => exact ⟨p, rfl⟩

/-- C10 witness: a matched name whose path is not UTF-8 representable still
yields none. -/
theorem C10_match_utf8_path_witness :
    match_deb ⟨false, some "bar_1.0_amd64.deb".toList, none⟩
      ["foo".toList, "bar".toList] = Except.ok none :=
  C10_match_utf8_path.1 _ _ "bar_1.0_amd64.deb".toList 3 1 rfl rfl
    (by decide) (by decide) rfl

/-- C8: contrary to the claim that each failing tool is reported by its own
name, a non-zero exit from any of the three external tools yields the same
literal error message "tar command failed"; rsync and unzip failures are
thus reported under the name tar.  This is the copy-paste slip in the error
strings of the rsync and unzip functions of src/misc.rs. -/
theorem C8_tool_failure_message :
    (∀ (src dst : Str) (d : Bool),
      (rsync src dst d false).2 = Except.error "tar command failed".toList) ∧
    (∀ (p dst : Str) (e : Bool),
      (unzip p dst e false).2 = Except.error "tar command failed".toList) ∧
    (∀ (p dst : Str) (e : Bool),
      (untar p dst e false).2 = Except.error "tar command failed".toList) :=
  ⟨fun _ _ _ => rfl, fun _ _ _ => rfl, fun _ _ _ => rfl⟩

/-- C9 counterexample: when src is not an existing directory, mirror performs
no directory creation at all before invoking the external tool, contradicting
the claim that src is created exactly in that case. -/
theorem C9_counterexample :
    (rsync "src".toList "dst".toList false true).1 =
      [FsOp.run "rsync".toList ["-avz".toList, "src".toList, "dst".toList]] ∧
    FsOp.createDirAll "src".toList ∉
      (rsync "src".toList "dst".toList false true).1 := by
  refine ⟨by decide, by decide⟩

/-- C9 (amended): mirror invokes create_dir_all(src) precisely when src
already exists as a directory, where the call is a no-op; when src does not
exist as a directory nothing is created, and in both cases the external
synchronization tool is then invoked on src and dst. -/
theorem C9_mirror_creation :
    ∀ (src dst : Str) (d e : Bool),
      (FsOp.createDirAll src ∈ (rsync src dst d e).1 ↔ d = true) ∧
      FsOp.run "rsync".toList ["-avz".toList, src, dst] ∈ (rsync src dst d e).1 := by
  intro src dst d e
  cases d <;> simp [rsync]

end DebRepBuild
